import Mathlib

/-!
Verification of the SmartApi WebSocket streaming client
(`src/SmartApi/webSocket.py`), a Python client for a brokerage
market-data feed.  The development shallowly embeds the binary tick
decoder (`_split_packets`, `_unpack_int`, `_parse_binary`), the
subscription request builder (`send_request`), the pong watchdog
(`onPong`, `_loop_pong_check`), the text-frame pipeline
(`_parse_text_message`) and the inbound-message dispatcher
(`_on_message`).

Byte strings are `List Nat` (each element a byte value), Python float
times and prices are `ℚ`, and Python exceptions are an explicit
`PyErr` value threaded through `Except`.
-/

/-- Python exception classes relevant to the embedded code.
`structError` is `struct.error` (raised by `struct.unpack` on a
buffer of the wrong size), `nameError` is `NameError` (read of a
never-assigned variable), `valueError` stands for `ValueError` and
all of its subclasses (`json.JSONDecodeError`, `UnicodeDecodeError`,
`binascii.Error`), and `zlibError` is `zlib.error`, which in Python
derives from `Exception` directly and is NOT a `ValueError`. -/
inductive PyErr where
  | structError
  | nameError
  | valueError
  | zlibError
deriving DecidableEq, Repr

/-- Whether an exception is caught by `except ValueError`.  Only
`valueError` (which stands for `ValueError` and its subclasses) is;
`zlib.error`, `struct.error` and `NameError` are not. -/
def isValueError : PyErr → Bool
  | PyErr.valueError => true
  | _ => false

/-- Python byte-string slice `b[s:e]` (for `0 ≤ s ≤ e`): the slice is
lenient, returning fewer than `e - s` bytes when the buffer ends
early. -/
def pySlice (b : List Nat) (s e : Nat) : List Nat :=
  (b.drop s).take (e - s)

/-- Big-endian value of a byte string, as computed by
`struct.unpack(">I")` / `struct.unpack(">H")`. -/
def beVal (l : List Nat) : Nat :=
  l.foldl (fun acc x => acc * 256 + x) 0

/-- `_unpack_int(bin, start, end, byte_format)` from the source:
`struct.unpack(">" + byte_format, bin[start:end])[0]`.  `size` is the
byte width of the format (4 for `"I"`, 2 for `"H"`); `struct.unpack`
raises `struct.error` when the slice is not exactly `size` bytes. -/
def unpack_int (b : List Nat) (s e size : Nat) : Except PyErr Nat :=
  if (pySlice b s e).length = size then Except.ok (beVal (pySlice b s e))
  else Except.error PyErr.structError

/-- The loop of `_split_packets`: `number_of_packets` iterations, each
reading a big-endian 16-bit length at `[j, j+2)` and slicing the
packet at `[j+2, j+2+L)`. -/
def split_loop (bin : List Nat) : Nat → Nat → List (List Nat) → Except PyErr (List (List Nat))
  | 0, _, acc => Except.ok acc
  | Nat.succ n, j, acc =>
    match unpack_int bin j (j + 2) 2 with
    | Except.error e => Except.error e
    | Except.ok packet_length =>
      split_loop bin n (j + 2 + packet_length) (acc ++ [pySlice bin (j + 2) (j + 2 + packet_length)])

/-- `_split_packets(bin)` from the source: frames shorter than 2 bytes
give `[]` ("Ignore heartbeat data"); otherwise the big-endian 16-bit
packet count is read at `[0,2)` and the loop splits off that many
length-prefixed packets. -/
def split_packets (bin : List Nat) : Except PyErr (List (List Nat)) :=
  if bin.length < 2 then Except.ok []
  else
    match unpack_int bin 0 2 2 with
    | Except.error e => Except.error e
    | Except.ok number_of_packets => split_loop bin number_of_packets 2 []

/-- One market-depth level as assembled at lines 473-477 of the
source: `quantity`, `price` (raw uint32 divided by the segment
divisor) and `orders`. -/
structure DepthEntry where
  quantity : Nat
  price : ℚ
  orders : Nat
deriving DecidableEq, Repr

/-- The `depth` dict of the source: `buy` and `sell` lists of depth
entries. -/
structure Depth where
  buy : List DepthEntry
  sell : List DepthEntry
deriving DecidableEq, Repr

/-- One decoded tick, with the fields that `_parse_binary` writes into
the output record `d` (timestamps are kept as raw `Option Nat`
seconds; `datetime.fromtimestamp` only wraps the value). -/
structure Tick where
  instrument_token : Nat
  segment : Nat
  tradable : Bool
  last_trade_time : Option Nat
  oi : Nat
  oi_day_high : Nat
  oi_day_low : Nat
  timestamp : Option Nat
  depth : Depth
deriving DecidableEq, Repr

/-- A Python `try: x = f() except Exception: x = None`, as used for
`last_trade_time` and `timestamp`. -/
def exceptToOption {α : Type} : Except PyErr α → Option α
  | Except.ok a => some a
  | Except.error _ => none

/-- Python `range(start, stop, step)` for a positive step: the offsets
`start, start+step, ...` strictly below `stop`. -/
def pyRange (start stop step : Nat) : List Nat :=
  (List.range ((stop - start + step - 1) / step)).map (fun k => start + step * k)

/-- One depth entry decode, the body of the market-depth loop at lines
473-477: `quantity` = uint32 at `[p,p+4)`, `price` = uint32 at
`[p+4,p+8)` divided by the divisor, `orders` = uint16 at `[p+8,p+10)`.
Each `_unpack_int` call can raise `struct.error` when the packet ends
early. -/
def decode_entry (packet : List Nat) (p : Nat) (divisor : ℚ) : Except PyErr DepthEntry :=
  match unpack_int packet p (p + 4) 4 with
  | Except.error e => Except.error e
  | Except.ok q =>
    match unpack_int packet (p + 4) (p + 8) 4 with
    | Except.error e => Except.error e
    | Except.ok pr =>
      match unpack_int packet (p + 8) (p + 10) 2 with
      | Except.error e => Except.error e
      | Except.ok o => Except.ok { quantity := q, price := (pr : ℚ) / divisor, orders := o }

/-- The market-depth loop of `_parse_binary`:
`for i, p in enumerate(range(64, len(packet), 12))`, appending the
decoded entry to `sell` when `i >= 5` and to `buy` otherwise. -/
def compile_depth_loop (packet : List Nat) (divisor : ℚ) :
    List (Nat × Nat) → Depth → Except PyErr Depth
  | [], d => Except.ok d
  | (i, p) :: rest, d =>
    match decode_entry packet p divisor with
    | Except.error e => Except.error e
    | Except.ok entry =>
      compile_depth_loop packet divisor rest
        (if 5 ≤ i then { d with sell := d.sell ++ [entry] } else { d with buy := d.buy ++ [entry] })

/-- The compiled market depth of one packet. -/
def compile_depth (packet : List Nat) (divisor : ℚ) : Except PyErr Depth :=
  compile_depth_loop packet divisor (List.enum (pyRange 64 packet.length 12)) { buy := [], sell := [] }

/-- The per-packet body of `_parse_binary` (lines 442-479) with the
output record initialized per packet, as the spec's §9 correction
note directs (the source itself reads the never-assigned record `d`,
see `parse_binary`): `instrument_token` = uint32 at `[0,4)`,
`segment = instrument_token & 0xff`, divisor `1e7` for segment 3
(cds) else `100`, `tradable` false exactly for segment 9 (indices),
try-guarded timestamps at `[44,48)` and `[60,64)`, unguarded open
interest fields at `[48,60)`, then the market-depth loop. -/
def parse_packet (packet : List Nat) : Except PyErr Tick :=
  match unpack_int packet 0 4 4 with
  | Except.error e => Except.error e
  | Except.ok instrument_token =>
    match unpack_int packet 48 52 4 with
    | Except.error e => Except.error e
    | Except.ok oi =>
      match unpack_int packet 52 56 4 with
      | Except.error e => Except.error e
      | Except.ok oi_day_high =>
        match unpack_int packet 56 60 4 with
        | Except.error e => Except.error e
        | Except.ok oi_day_low =>
          match compile_depth packet (if instrument_token % 256 = 3 then (10000000 : ℚ) else 100) with
          | Except.error e => Except.error e
          | Except.ok depth =>
            Except.ok {
              instrument_token := instrument_token
              segment := instrument_token % 256
              tradable := if instrument_token % 256 = 9 then false else true
              last_trade_time := exceptToOption (unpack_int packet 44 48 4)
              oi := oi
              oi_day_high := oi_day_high
              oi_day_low := oi_day_low
              timestamp := exceptToOption (unpack_int packet 60 64 4)
              depth := depth }

/-- `_parse_binary(bin)` exactly as the source executes (lines
436-483).  The output record `d` is never assigned anywhere in the
function, so: with at least one packet, the loop body for the first
packet evaluates `_unpack_int(packet, 0, 4)` (which can raise
`struct.error`) and then raises `NameError` at the first field write
`d["last_trade_time"] = ...`; with zero packets, the final
`data.append(d)` (which sits after the loop) raises `NameError`.  No
control path returns a value. -/
def parse_binary (bin : List Nat) : Except PyErr (List Tick) :=
  match split_packets bin with
  | Except.error e => Except.error e
  | Except.ok [] => Except.error PyErr.nameError
  | Except.ok (packet :: _) =>
    match unpack_int packet 0 4 4 with
    | Except.error e => Except.error e
    | Except.ok _ => Except.error PyErr.nameError

/-- Big-endian 16-bit encoding of a value below 2^16. -/
def be16 (v : Nat) : List Nat := [v / 256, v % 256]

/-- Concatenation of length-prefixed packet entries (each entry a
big-endian 16-bit length followed by that many payload bytes). -/
def encode_packets : List (List Nat) → List Nat
  | [] => []
  | p :: ps => be16 p.length ++ p ++ encode_packets ps

/-- A well-formed tick frame: a big-endian 16-bit packet count `N`
followed by `N` length-prefixed packet entries. -/
def encode_frame (ps : List (List Nat)) : List Nat :=
  be16 ps.length ++ encode_packets ps

/-- A concrete 76-byte packet (all zero bytes) used as evaluation
input: it decodes to one tick with a single buy depth entry. -/
def samplePacket : List Nat := List.replicate 76 0

/-- The tick that `parse_packet` produces on `samplePacket`. -/
def sampleTick : Tick :=
  { instrument_token := 0, segment := 0, tradable := true, last_trade_time := some 0,
    oi := 0, oi_day_high := 0, oi_day_low := 0, timestamp := some 0,
    depth := { buy := [{ quantity := 0, price := ((0 : Nat) : ℚ) / 100, orders := 0 }], sell := [] } }

/-- Decidable equality for `Except`, so that concrete decoder results
can be checked by `decide`. -/
instance {ε α : Type} [DecidableEq ε] [DecidableEq α] : DecidableEq (Except ε α)
  | Except.ok a, Except.ok b =>
    if h : a = b then isTrue (by rw [h]) else isFalse (by intro hc; cases hc; exact h rfl)
  | Except.error a, Except.error b =>
    if h : a = b then isTrue (by rw [h]) else isFalse (by intro hc; cases hc; exact h rfl)
  | Except.ok _, Except.error _ => isFalse (by intro hc; cases hc)
  | Except.error _, Except.ok _ => isFalse (by intro hc; cases hc)

/-! ### Basic slice and unpack lemmas -/

theorem length_pySlice (b : List Nat) (s e : Nat) :
    (pySlice b s e).length = min (e - s) (b.length - s) := by
  simp [pySlice]

theorem pySlice_add (b : List Nat) (j k : Nat) :
    pySlice b j (j + k) = (b.drop j).take k := by
  simp [pySlice]

theorem unpack_int_ok_of {b : List Nat} {s e size : Nat}
    (h : (pySlice b s e).length = size) :
    unpack_int b s e size = Except.ok (beVal (pySlice b s e)) := by
  simp [unpack_int, h]

theorem unpack_int_ok_inv {b : List Nat} {s e size v : Nat}
    (h : unpack_int b s e size = Except.ok v) :
    (pySlice b s e).length = size ∧ v = beVal (pySlice b s e) := by
  by_cases hl : (pySlice b s e).length = size
  · refine ⟨hl, ?_⟩
    rw [unpack_int_ok_of hl] at h
    exact (Except.ok.inj h).symm
  · rw [unpack_int, if_neg hl] at h
    exact absurd h (by intro hc; cases hc)

theorem beVal_be16 (v : Nat) : beVal (be16 v) = v := by
  simp [beVal, be16, List.foldl]
  omega

theorem length_be16 (v : Nat) : (be16 v).length = 2 := rfl

theorem length_encode_packets (ps : List (List Nat)) :
    (encode_packets ps).length = 2 * ps.length + (ps.map List.length).sum := by
  induction ps with
  | nil => simp [encode_packets]
  | cons p ps ih => simp [encode_packets, be16, ih]; omega

/-! ### Splitting a well-formed frame -/

theorem split_loop_encodes (ps : List (List Nat)) :
    ∀ (bin : List Nat) (j : Nat) (acc : List (List Nat)),
      bin.drop j = encode_packets ps →
      split_loop bin ps.length j acc = Except.ok (acc ++ ps) := by
  induction ps with
  | nil =>
    intro bin j acc _
    simp [split_loop]
  | cons p ps ih =>
    intro bin j acc hdrop
    have hdrop2 : bin.drop (j + 2) = p ++ encode_packets ps := by
      have : bin.drop (j + 2) = (bin.drop j).drop 2 := by
        rw [List.drop_drop]
      rw [this, hdrop]
      simp [encode_packets, be16]
    have hhead : pySlice bin j (j + 2) = be16 p.length := by
      rw [pySlice_add, hdrop]
      simp [encode_packets, be16]
    have hunpack : unpack_int bin j (j + 2) 2 = Except.ok p.length := by
      have hl : (pySlice bin j (j + 2)).length = 2 := by rw [hhead]; rfl
      rw [unpack_int_ok_of hl, hhead, beVal_be16]
    have hpacket : pySlice bin (j + 2) (j + 2 + p.length) = p := by
      rw [pySlice_add, hdrop2]
      exact List.take_left p (encode_packets ps)
    have hdrop3 : bin.drop (j + 2 + p.length) = encode_packets ps := by
      have : bin.drop (j + 2 + p.length) = (bin.drop (j + 2)).drop p.length := by
        rw [List.drop_drop]
      rw [this, hdrop2, List.drop_left]
    show split_loop bin (ps.length + 1) j acc = Except.ok (acc ++ p :: ps)
    rw [split_loop, hunpack]
    show split_loop bin ps.length (j + 2 + p.length)
        (acc ++ [pySlice bin (j + 2) (j + 2 + p.length)]) = Except.ok (acc ++ p :: ps)
    rw [hpacket, ih bin (j + 2 + p.length) (acc ++ [p]) hdrop3]
    simp

/-- C3 — For every well-formed binary frame that begins with a
big-endian 16-bit packet count `N` followed by `N` length-prefixed
entries, `_split_packets` produces exactly those `N` packets (each
packet's bytes taken immediately after its own big-endian 16-bit
length prefix), and the packet lengths sum to
`frame_length - 2 - 2 * N`: the split exactly consumes the frame. -/
theorem split_packets_exact (ps : List (List Nat))
    (hN : ps.length < 65536)
    (hL : ∀ p ∈ ps, p.length < 65536)
    (hB : ∀ p ∈ ps, ∀ b ∈ p, b < 256) :
    split_packets (encode_frame ps) = Except.ok ps ∧
    (ps.map List.length).sum = (encode_frame ps).length - 2 - 2 * ps.length := by
  constructor
  · have hlen : (encode_frame ps).length = 2 + (encode_packets ps).length := by
      simp [encode_frame, be16]
      omega
    have hnotshort : ¬ (encode_frame ps).length < 2 := by omega
    have hhead : pySlice (encode_frame ps) 0 2 = be16 ps.length := by
      have : pySlice (encode_frame ps) 0 2 = ((encode_frame ps).drop 0).take 2 := by
        rw [show (2 : Nat) = 0 + 2 from rfl, pySlice_add]
      rw [this]
      simp [encode_frame, be16]
    have hunpack : unpack_int (encode_frame ps) 0 2 2 = Except.ok ps.length := by
      have hl : (pySlice (encode_frame ps) 0 2).length = 2 := by rw [hhead]; rfl
      rw [unpack_int_ok_of hl, hhead, beVal_be16]
    have hdrop : (encode_frame ps).drop 2 = encode_packets ps := by
      simp [encode_frame, be16]
    rw [split_packets, if_neg hnotshort, hunpack]
    show split_loop (encode_frame ps) ps.length 2 [] = Except.ok ps
    rw [split_loop_encodes ps (encode_frame ps) 2 [] hdrop]
    simp
  · have hlen : (encode_frame ps).length = 2 + (encode_packets ps).length := by
      simp [encode_frame, be16]
      omega
    have := length_encode_packets ps
    omega

/-- Witness for `split_packets_exact` at the one-packet frame holding
the bytes `[7, 8, 9]`. -/
theorem split_packets_exact_witness :
    split_packets (encode_frame [[7, 8, 9]]) = Except.ok [[7, 8, 9]] ∧
    (([[7, 8, 9]] : List (List Nat)).map List.length).sum =
      (encode_frame [[7, 8, 9]]).length - 2 - 2 * ([[7, 8, 9]] : List (List Nat)).length :=
  split_packets_exact [[7, 8, 9]] (by decide) (by decide) (by decide)

/-! ### The decoder never returns: the output record `d` is unbound -/

/-- C1 (amended) — `_parse_binary` never returns a tick list on any
frame.  When splitting succeeds and either no packets result or the
first packet is at least 4 bytes, evaluation reaches a read of the
never-assigned record `d` (at the first field write inside the loop
with at least one packet, at the final append with none) and raises
`NameError`; when splitting fails, or the first packet is shorter
than 4 bytes, a `struct.error` from `_unpack_int` is raised before
any read of `d`. -/
theorem parse_binary_always_raises (bin : List Nat) :
    (∀ ticks : List Tick, parse_binary bin ≠ Except.ok ticks) ∧
    (∀ ps : List (List Nat), split_packets bin = Except.ok ps →
      (ps = [] → parse_binary bin = Except.error PyErr.nameError) ∧
      (∀ p rest, ps = p :: rest → 4 ≤ p.length →
        parse_binary bin = Except.error PyErr.nameError) ∧
      (∀ p rest, ps = p :: rest → p.length < 4 →
        parse_binary bin = Except.error PyErr.structError)) := by
  have hcase : ∀ ps : List (List Nat), split_packets bin = Except.ok ps →
      (ps = [] → parse_binary bin = Except.error PyErr.nameError) ∧
      (∀ p rest, ps = p :: rest → 4 ≤ p.length →
        parse_binary bin = Except.error PyErr.nameError) ∧
      (∀ p rest, ps = p :: rest → p.length < 4 →
        parse_binary bin = Except.error PyErr.structError) := by
    intro ps hsplit
    refine ⟨?_, ?_, ?_⟩
    · intro hnil
      subst hnil
      simp [parse_binary, hsplit]
    · intro p rest hcons hlen
      subst hcons
      have hslice : (pySlice p 0 4).length = 4 := by
        rw [length_pySlice]
        omega
      simp [parse_binary, hsplit, unpack_int_ok_of hslice]
    · intro p rest hcons hlen
      subst hcons
      have hslice : ¬ (pySlice p 0 4).length = 4 := by
        rw [length_pySlice]
        omega
      simp [parse_binary, hsplit, unpack_int, hslice]
  refine ⟨?_, hcase⟩
  intro ticks hc
  cases hsplit : split_packets bin with
  | error e =>
    rw [parse_binary, hsplit] at hc
    exact Except.noConfusion hc
  | ok ps =>
    cases ps with
    | nil =>
      rw [(hcase [] hsplit).1 rfl] at hc
      exact Except.noConfusion hc
    | cons packet rest =>
      by_cases hlen : 4 ≤ packet.length
      · rw [(hcase _ hsplit).2.1 packet rest rfl hlen] at hc
        exact Except.noConfusion hc
      · rw [(hcase _ hsplit).2.2 packet rest rfl (by omega)] at hc
        exact Except.noConfusion hc

/-- Witness for `parse_binary_always_raises`: on the empty frame the
split yields no packets and the decoder raises `NameError` at the
final `data.append(d)`. -/
theorem parse_binary_always_raises_witness :
    parse_binary [] = Except.error PyErr.nameError :=
  (((parse_binary_always_raises []).2 [] (by decide)).1) rfl

/-- C1 counterexample — the claim "evaluation always reaches a read of
`d` ... so the decode operation always raises an uninitialized-variable
error" fails on the frame `[0,1,0,1,0]` (packet count 1, packet length
1, one-byte packet): `_unpack_int(packet, 0, 4)` raises `struct.error`
at line 442, before any read of `d`. -/
theorem parse_binary_not_always_name_error :
    parse_binary [0, 1, 0, 1, 0] = Except.error PyErr.structError ∧
    parse_binary [0, 1, 0, 1, 0] ≠ Except.error PyErr.nameError := by
  constructor
  · decide
  · decide

/-- C2 — For every binary frame shorter than 2 bytes, `_split_packets`
returns no packets, the per-packet loop does not run, and the final
`data.append(d)` reads the never-assigned record `d`: the decoder
raises `NameError` instead of returning the empty tick list the spec
promises. -/
theorem parse_binary_short_frame_name_error (bin : List Nat)
    (h : bin.length < 2) :
    parse_binary bin = Except.error PyErr.nameError := by
  simp [parse_binary, split_packets, h]

/-- Witness for `parse_binary_short_frame_name_error` at the empty
frame. -/
theorem parse_binary_short_frame_name_error_witness :
    parse_binary [] = Except.error PyErr.nameError :=
  parse_binary_short_frame_name_error [] (by decide)

/-! ### Per-packet decode lemmas -/

theorem decode_entry_ok_of_le {packet : List Nat} {p : Nat} (divisor : ℚ)
    (h : p + 10 ≤ packet.length) :
    decode_entry packet p divisor = Except.ok
      { quantity := beVal (pySlice packet p (p + 4)),
        price := (beVal (pySlice packet (p + 4) (p + 8)) : ℚ) / divisor,
        orders := beVal (pySlice packet (p + 8) (p + 10)) } := by
  have h1 : (pySlice packet p (p + 4)).length = 4 := by rw [length_pySlice]; omega
  have h2 : (pySlice packet (p + 4) (p + 8)).length = 4 := by rw [length_pySlice]; omega
  have h3 : (pySlice packet (p + 8) (p + 10)).length = 2 := by rw [length_pySlice]; omega
  simp only [decode_entry, unpack_int_ok_of h1, unpack_int_ok_of h2, unpack_int_ok_of h3]

theorem decode_entry_ok_inv {packet : List Nat} {p : Nat} {divisor : ℚ} {e : DepthEntry}
    (h : decode_entry packet p divisor = Except.ok e) :
    p + 10 ≤ packet.length ∧
    unpack_int packet (p + 4) (p + 8) 4 = Except.ok (beVal (pySlice packet (p + 4) (p + 8))) ∧
    e.price = (beVal (pySlice packet (p + 4) (p + 8)) : ℚ) / divisor := by
  cases h1 : unpack_int packet p (p + 4) 4 with
  | error e1 =>
    simp only [decode_entry, h1] at h
    exact Except.noConfusion h
  | ok q =>
    cases h2 : unpack_int packet (p + 4) (p + 8) 4 with
    | error e2 =>
      simp only [decode_entry, h1, h2] at h
      exact Except.noConfusion h
    | ok pr =>
      cases h3 : unpack_int packet (p + 8) (p + 10) 2 with
      | error e3 =>
        simp only [decode_entry, h1, h2, h3] at h
        exact Except.noConfusion h
      | ok o =>
        simp only [decode_entry, h1, h2, h3] at h
        have he : ({ quantity := q, price := (pr : ℚ) / divisor, orders := o } : DepthEntry) = e :=
          Except.ok.inj h
        obtain ⟨hl3, -⟩ := unpack_int_ok_inv h3
        obtain ⟨-, hv2⟩ := unpack_int_ok_inv h2
        rw [length_pySlice] at hl3
        refine ⟨by omega, by rw [hv2], ?_⟩
        rw [← he, ← hv2]

theorem enumFrom_cons_eq {α : Type} (k : Nat) (a : α) (l : List α) :
    List.enumFrom k (a :: l) = (k, a) :: List.enumFrom (k + 1) l := rfl

theorem snd_mem_of_mem_enumFrom {α : Type} :
    ∀ (l : List α) (k : Nat) (pr : Nat × α), pr ∈ List.enumFrom k l → pr.2 ∈ l := by
  intro l
  induction l with
  | nil => intro k pr hpr; cases hpr
  | cons a l ih =>
    intro k pr hpr
    rw [enumFrom_cons_eq] at hpr
    rcases List.mem_cons.mp hpr with h | h
    · subst h; exact List.mem_cons_self a l
    · exact List.mem_cons_of_mem a (ih (k + 1) pr h)

theorem compile_depth_loop_cons_ok (packet : List Nat) (divisor : ℚ)
    (i p : Nat) (rest : List (Nat × Nat)) (d : Depth) (entry : DepthEntry)
    (hdec : decode_entry packet p divisor = Except.ok entry) :
    compile_depth_loop packet divisor ((i, p) :: rest) d =
      compile_depth_loop packet divisor rest
        (if 5 ≤ i then { d with sell := d.sell ++ [entry] }
         else { d with buy := d.buy ++ [entry] }) := by
  simp only [compile_depth_loop, hdec]

theorem compile_depth_loop_cons_err (packet : List Nat) (divisor : ℚ)
    (i p : Nat) (rest : List (Nat × Nat)) (d : Depth) (err : PyErr)
    (hdec : decode_entry packet p divisor = Except.error err) :
    compile_depth_loop packet divisor ((i, p) :: rest) d = Except.error err := by
  simp only [compile_depth_loop, hdec]

theorem compile_depth_loop_ok_forall (packet : List Nat) (divisor : ℚ) :
    ∀ (l : List Nat) (k : Nat) (d d' : Depth),
      compile_depth_loop packet divisor (List.enumFrom k l) d = Except.ok d' →
      ∀ p ∈ l, ∃ e, decode_entry packet p divisor = Except.ok e := by
  intro l
  induction l with
  | nil => intro k d d' _ p hp; cases hp
  | cons p0 l ih =>
    intro k d d' h q hq
    rw [enumFrom_cons_eq] at h
    cases hdec : decode_entry packet p0 divisor with
    | error e0 =>
      rw [compile_depth_loop_cons_err packet divisor k p0 _ d e0 hdec] at h
      exact Except.noConfusion h
    | ok ent =>
      rcases List.mem_cons.mp hq with hq0 | hq1
      · exact ⟨ent, hq0 ▸ hdec⟩
      · rw [compile_depth_loop_cons_ok packet divisor k p0 _ d ent hdec] at h
        exact ih (k + 1) _ d' h q hq1

theorem compile_depth_loop_spec (packet : List Nat) (divisor : ℚ) :
    ∀ (l : List Nat) (k : Nat) (d : Depth),
      (∀ p ∈ l, p + 10 ≤ packet.length) →
      ∃ d', compile_depth_loop packet divisor (List.enumFrom k l) d = Except.ok d' ∧
        d'.buy.length = d.buy.length + (min 5 (k + l.length) - min 5 k) ∧
        d'.sell.length = d.sell.length + (l.length - (min 5 (k + l.length) - min 5 k)) := by
  intro l
  induction l with
  | nil =>
    intro k d _
    refine ⟨d, rfl, ?_, ?_⟩
    · simp
    · simp
  | cons p0 l ih =>
    intro k d hall
    have hp0 : p0 + 10 ≤ packet.length := hall p0 (List.mem_cons_self p0 l)
    have hrest : ∀ p ∈ l, p + 10 ≤ packet.length :=
      fun p hp => hall p (List.mem_cons_of_mem p0 hp)
    obtain ⟨ent, hdec⟩ : ∃ ent, decode_entry packet p0 divisor = Except.ok ent :=
      ⟨_, @decode_entry_ok_of_le packet p0 divisor hp0⟩
    by_cases hk : 5 ≤ k
    · obtain ⟨d', hloop, hbuy, hsell⟩ := ih (k + 1) ({ d with sell := d.sell ++ [ent] }) hrest
      refine ⟨d', ?_, ?_, ?_⟩
      · rw [enumFrom_cons_eq,
          compile_depth_loop_cons_ok packet divisor k p0 _ d ent hdec, if_pos hk]
        exact hloop
      · simp only [List.length_cons]
        simp only [List.length_append, List.length_cons, List.length_nil] at hbuy
        omega
      · simp only [List.length_cons]
        simp only [List.length_append, List.length_cons, List.length_nil] at hsell
        omega
    · obtain ⟨d', hloop, hbuy, hsell⟩ := ih (k + 1) ({ d with buy := d.buy ++ [ent] }) hrest
      refine ⟨d', ?_, ?_, ?_⟩
      · rw [enumFrom_cons_eq,
          compile_depth_loop_cons_ok packet divisor k p0 _ d ent hdec, if_neg hk]
        exact hloop
      · simp only [List.length_cons]
        simp only [List.length_append, List.length_cons, List.length_nil] at hbuy
        omega
      · simp only [List.length_cons]
        simp only [List.length_append, List.length_cons, List.length_nil] at hsell
        omega

theorem compile_depth_loop_mem (packet : List Nat) (divisor : ℚ) (R : List Nat) :
    ∀ (L : List (Nat × Nat)) (d d' : Depth),
      compile_depth_loop packet divisor L d = Except.ok d' →
      (∀ pr ∈ L, pr.2 ∈ R) →
      ∀ e ∈ d'.buy ++ d'.sell,
        e ∈ d.buy ++ d.sell ∨ ∃ p, p ∈ R ∧ decode_entry packet p divisor = Except.ok e := by
  intro L
  induction L with
  | nil =>
    intro d d' h _ e he
    rw [compile_depth_loop] at h
    have hd := Except.ok.inj h
    subst hd
    exact Or.inl he
  | cons pr0 L ih =>
    intro d d' h hR e he
    obtain ⟨i, p⟩ := pr0
    have hpR : p ∈ R := hR (i, p) (List.mem_cons_self _ _)
    have hRrest : ∀ pr ∈ L, pr.2 ∈ R := fun pr hpr => hR pr (List.mem_cons_of_mem _ hpr)
    cases hdec : decode_entry packet p divisor with
    | error e0 =>
      rw [compile_depth_loop_cons_err packet divisor i p L d e0 hdec] at h
      exact Except.noConfusion h
    | ok ent =>
      rw [compile_depth_loop_cons_ok packet divisor i p L d ent hdec] at h
      rcases ih _ d' h hRrest e he with hin | hP
      · by_cases hi : 5 ≤ i
        · rw [if_pos hi] at hin
          simp only [List.mem_append, List.mem_singleton] at hin
          rcases hin with hin | (hin | hin)
          · exact Or.inl (List.mem_append.mpr (Or.inl hin))
          · exact Or.inl (List.mem_append.mpr (Or.inr hin))
          · exact Or.inr ⟨p, hpR, hin ▸ hdec⟩
        · rw [if_neg hi] at hin
          simp only [List.mem_append, List.mem_singleton] at hin
          rcases hin with (hin | hin) | hin
          · exact Or.inl (List.mem_append.mpr (Or.inl hin))
          · exact Or.inr ⟨p, hpR, hin ▸ hdec⟩
          · exact Or.inl (List.mem_append.mpr (Or.inr hin))
      · exact Or.inr hP

theorem parse_packet_inv {packet : List Nat} {t : Tick}
    (h : parse_packet packet = Except.ok t) :
    unpack_int packet 0 4 4 = Except.ok t.instrument_token ∧
    t.segment = t.instrument_token % 256 ∧
    t.tradable = (if t.segment = 9 then false else true) ∧
    compile_depth packet (if t.segment = 3 then (10000000 : ℚ) else 100) = Except.ok t.depth := by
  cases h0 : unpack_int packet 0 4 4 with
  | error e =>
    simp only [parse_packet, h0] at h
    exact Except.noConfusion h
  | ok it =>
    cases h1 : unpack_int packet 48 52 4 with
    | error e =>
      simp only [parse_packet, h0, h1] at h
      exact Except.noConfusion h
    | ok oiv =>
      cases h2 : unpack_int packet 52 56 4 with
      | error e =>
        simp only [parse_packet, h0, h1, h2] at h
        exact Except.noConfusion h
      | ok oihv =>
        cases h3 : unpack_int packet 56 60 4 with
        | error e =>
          simp only [parse_packet, h0, h1, h2, h3] at h
          exact Except.noConfusion h
        | ok oilv =>
          cases h4 : compile_depth packet (if it % 256 = 3 then (10000000 : ℚ) else 100) with
          | error e =>
            simp only [parse_packet, h0, h1, h2, h3, h4] at h
            exact Except.noConfusion h
          | ok depthv =>
            simp only [parse_packet, h0, h1, h2, h3, h4] at h
            have ht := Except.ok.inj h
            subst ht
            exact ⟨rfl, rfl, rfl, h4⟩

/-- Shared evaluation fact: `parse_packet` on the 76-byte all-zero
packet yields `sampleTick`. -/
theorem parse_packet_sample : parse_packet samplePacket = Except.ok sampleTick := rfl

/-- C4 — For every decoded packet, the price divisor is determined
solely by `segment = instrument_token & 0xff`: every depth entry of
the decoded tick is the decode of some wire slot at an offset
`p ∈ {64, 76, 88, ...}` inside the packet, and its price is the raw
uint32 at `[p+4, p+8)` divided by `1e7` when `segment = 3` (cds) and
by `100` for every other segment value. -/
theorem depth_price_divisor_by_segment (packet : List Nat) (t : Tick)
    (h : parse_packet packet = Except.ok t)
    (e : DepthEntry) (he : e ∈ t.depth.buy ++ t.depth.sell) :
    t.segment = t.instrument_token % 256 ∧
    ∃ p raw, 64 ≤ p ∧ (p - 64) % 12 = 0 ∧ p < packet.length ∧
      unpack_int packet (p + 4) (p + 8) 4 = Except.ok raw ∧
      e.price = (raw : ℚ) / (if t.segment = 3 then (10000000 : ℚ) else 100) := by
  obtain ⟨-, hseg, -, hdepth⟩ := parse_packet_inv h
  refine ⟨hseg, ?_⟩
  rw [compile_depth] at hdepth
  have hR : ∀ pr ∈ List.enumFrom 0 (pyRange 64 packet.length 12),
      pr.2 ∈ pyRange 64 packet.length 12 :=
    fun pr hpr => snd_mem_of_mem_enumFrom _ 0 pr hpr
  have hmem := compile_depth_loop_mem packet (if t.segment = 3 then (10000000 : ℚ) else 100)
      (pyRange 64 packet.length 12) (List.enum (pyRange 64 packet.length 12))
      { buy := [], sell := [] } t.depth hdepth hR e he
  rcases hmem with hin | ⟨p, hpR, hdec⟩
  · simp at hin
  · obtain ⟨hple, hup, hprice⟩ := decode_entry_ok_inv hdec
    rw [pyRange] at hpR
    obtain ⟨k, hk, hpk⟩ := List.mem_map.mp hpR
    have hklt : k < (packet.length - 64 + 11) / 12 := List.mem_range.mp hk
    refine ⟨p, beVal (pySlice packet (p + 4) (p + 8)), by omega, by omega, by omega,
      hup, hprice⟩

/-- Witness for `depth_price_divisor_by_segment` at the 76-byte
all-zero packet and its single buy entry. -/
theorem depth_price_divisor_by_segment_witness :
    sampleTick.segment = sampleTick.instrument_token % 256 :=
  (depth_price_divisor_by_segment samplePacket sampleTick parse_packet_sample
    { quantity := 0, price := ((0 : Nat) : ℚ) / 100, orders := 0 }
    (by simp [sampleTick])).1

/-- C5 — For every decoded packet, the tradable flag is false exactly
when `segment = 9` (indices), where `segment` is the low byte
(`instrument_token % 256`) of the big-endian uint32 instrument token
read at bytes `[0, 4)` of the packet. -/
theorem tradable_iff_not_indices (packet : List Nat) (t : Tick)
    (h : parse_packet packet = Except.ok t) :
    (t.tradable = false ↔ t.segment = 9) ∧
    t.segment = t.instrument_token % 256 ∧
    unpack_int packet 0 4 4 = Except.ok t.instrument_token := by
  obtain ⟨hu, hseg, htr, -⟩ := parse_packet_inv h
  refine ⟨?_, hseg, hu⟩
  rw [htr]
  by_cases h9 : t.segment = 9
  · simp [h9]
  · simp [h9]

/-- Witness for `tradable_iff_not_indices` at the 76-byte all-zero
packet (segment 0, tradable). -/
theorem tradable_iff_not_indices_witness :
    (sampleTick.tradable = false ↔ sampleTick.segment = 9) ∧
    sampleTick.segment = sampleTick.instrument_token % 256 ∧
    unpack_int samplePacket 0 4 4 = Except.ok sampleTick.instrument_token :=
  tradable_iff_not_indices samplePacket sampleTick parse_packet_sample

/-- One decoded market-depth level at wire offset `p`, written out as
a total function of the packet bytes: the values that the three
`_unpack_int` calls of the depth loop produce when they succeed. -/
def decoded_entry (packet : List Nat) (divisor : ℚ) (p : Nat) : DepthEntry :=
  { quantity := beVal (pySlice packet p (p + 4)),
    price := (beVal (pySlice packet (p + 4) (p + 8)) : ℚ) / divisor,
    orders := beVal (pySlice packet (p + 8) (p + 10)) }

theorem compile_depth_loop_routing (packet : List Nat) (divisor : ℚ) :
    ∀ (l : List Nat) (k : Nat) (d : Depth),
      (∀ p ∈ l, p + 10 ≤ packet.length) →
      compile_depth_loop packet divisor (List.enumFrom k l) d =
        Except.ok
          { buy := d.buy ++ (l.map (decoded_entry packet divisor)).take (5 - k),
            sell := d.sell ++ (l.map (decoded_entry packet divisor)).drop (5 - k) } := by
  intro l
  induction l with
  | nil =>
    intro k d _
    simp [compile_depth_loop]
  | cons p0 l ih =>
    intro k d hall
    have hp0 : p0 + 10 ≤ packet.length := hall p0 (List.mem_cons_self p0 l)
    have hrest : ∀ p ∈ l, p + 10 ≤ packet.length :=
      fun p hp => hall p (List.mem_cons_of_mem p0 hp)
    have hdec : decode_entry packet p0 divisor =
        Except.ok (decoded_entry packet divisor p0) :=
      @decode_entry_ok_of_le packet p0 divisor hp0
    rw [enumFrom_cons_eq,
      compile_depth_loop_cons_ok packet divisor k p0 _ d (decoded_entry packet divisor p0) hdec]
    by_cases hk : 5 ≤ k
    · rw [if_pos hk, ih (k + 1) _ hrest]
      have h5k : 5 - k = 0 := by omega
      have h5k1 : 5 - (k + 1) = 0 := by omega
      rw [h5k, h5k1]
      simp
    · rw [if_neg hk, ih (k + 1) _ hrest]
      have h5k : 5 - k = (5 - (k + 1)) + 1 := by omega
      rw [h5k]
      simp

/-- C6 (amended) — Depth entries are decoded at offsets
`p = 64, 76, 88, ...` strictly below the packet length (the Python
guard is `p < len(packet)`, not `p + 12 ≤ len(packet)`); whenever the
per-packet decode succeeds, every visited offset satisfied
`p + 10 ≤ packet length` (otherwise the decode raises `struct.error`)
and decoded to `decoded_entry` at that offset; the buy list is
exactly the first 5 decoded entries in wire order (`take 5` of the
offset-ordered decode sequence) and the sell list exactly the
remainder (`drop 5`); and a packet of at most 64 bytes yields empty
buy and sell lists. -/
theorem depth_offsets_guard_amended (packet : List Nat) (t : Tick)
    (h : parse_packet packet = Except.ok t) :
    t.depth.buy =
      ((pyRange 64 packet.length 12).map
        (decoded_entry packet (if t.segment = 3 then (10000000 : ℚ) else 100))).take 5 ∧
    t.depth.sell =
      ((pyRange 64 packet.length 12).map
        (decoded_entry packet (if t.segment = 3 then (10000000 : ℚ) else 100))).drop 5 ∧
    (∀ p ∈ pyRange 64 packet.length 12,
      decode_entry packet p (if t.segment = 3 then (10000000 : ℚ) else 100) =
        Except.ok (decoded_entry packet (if t.segment = 3 then (10000000 : ℚ) else 100) p)) ∧
    t.depth.buy.length = min 5 (pyRange 64 packet.length 12).length ∧
    t.depth.sell.length = (pyRange 64 packet.length 12).length - 5 ∧
    (∀ p ∈ pyRange 64 packet.length 12, p + 10 ≤ packet.length) ∧
    (packet.length ≤ 64 → t.depth.buy = [] ∧ t.depth.sell = []) := by
  obtain ⟨-, -, -, hdepth⟩ := parse_packet_inv h
  rw [compile_depth] at hdepth
  have hforall : ∀ p ∈ pyRange 64 packet.length 12, p + 10 ≤ packet.length := by
    intro p hp
    obtain ⟨e, hdec⟩ := compile_depth_loop_ok_forall packet
      (if t.segment = 3 then (10000000 : ℚ) else 100) (pyRange 64 packet.length 12) 0
      { buy := [], sell := [] } t.depth hdepth p hp
    exact (decode_entry_ok_inv hdec).1
  rw [show List.enum (pyRange 64 packet.length 12)
      = List.enumFrom 0 (pyRange 64 packet.length 12) from rfl] at hdepth
  rw [compile_depth_loop_routing packet (if t.segment = 3 then (10000000 : ℚ) else 100)
      (pyRange 64 packet.length 12) 0 { buy := [], sell := [] } hforall] at hdepth
  have hd : t.depth =
      { buy := ([] : List DepthEntry) ++
          (((pyRange 64 packet.length 12).map
            (decoded_entry packet (if t.segment = 3 then (10000000 : ℚ) else 100))).take (5 - 0)),
        sell := ([] : List DepthEntry) ++
          (((pyRange 64 packet.length 12).map
            (decoded_entry packet (if t.segment = 3 then (10000000 : ℚ) else 100))).drop (5 - 0)) } :=
    (Except.ok.inj hdepth).symm
  have hbuy : t.depth.buy =
      ((pyRange 64 packet.length 12).map
        (decoded_entry packet (if t.segment = 3 then (10000000 : ℚ) else 100))).take 5 := by
    rw [hd]
    simp
  have hsell : t.depth.sell =
      ((pyRange 64 packet.length 12).map
        (decoded_entry packet (if t.segment = 3 then (10000000 : ℚ) else 100))).drop 5 := by
    rw [hd]
    simp
  have hdecall : ∀ p ∈ pyRange 64 packet.length 12,
      decode_entry packet p (if t.segment = 3 then (10000000 : ℚ) else 100) =
        Except.ok (decoded_entry packet (if t.segment = 3 then (10000000 : ℚ) else 100) p) :=
    fun p hp => @decode_entry_ok_of_le packet p
      (if t.segment = 3 then (10000000 : ℚ) else 100) (hforall p hp)
  have hlbuy : t.depth.buy.length = min 5 (pyRange 64 packet.length 12).length := by
    rw [hbuy, List.length_take, List.length_map]
  have hlsell : t.depth.sell.length = (pyRange 64 packet.length 12).length - 5 := by
    rw [hsell, List.length_drop, List.length_map]
  refine ⟨hbuy, hsell, hdecall, hlbuy, hlsell, hforall, ?_⟩
  intro hle
  have hzero : (packet.length - 64 + 12 - 1) / 12 = 0 := by omega
  have hnil : pyRange 64 packet.length 12 = [] := by
    rw [pyRange, hzero]
    rfl
  rw [hbuy, hsell, hnil]
  simp

/-- Witness for `depth_offsets_guard_amended` at the 76-byte all-zero
packet: one offset (64) is visited, its wire-order decode populates
the buy list (`take 5` of the one-entry sequence) and the sell list
is the empty remainder (`drop 5`). -/
theorem depth_offsets_guard_amended_witness :
    sampleTick.depth.buy =
      ((pyRange 64 samplePacket.length 12).map
        (decoded_entry samplePacket
          (if sampleTick.segment = 3 then (10000000 : ℚ) else 100))).take 5 ∧
    sampleTick.depth.sell =
      ((pyRange 64 samplePacket.length 12).map
        (decoded_entry samplePacket
          (if sampleTick.segment = 3 then (10000000 : ℚ) else 100))).drop 5 :=
  ⟨(depth_offsets_guard_amended samplePacket sampleTick parse_packet_sample).1,
   (depth_offsets_guard_amended samplePacket sampleTick parse_packet_sample).2.1⟩


/-- C6 counterexample — the claim "every packet shorter than 76 bytes
yields zero depth entries and an empty buy and sell list" fails on a
74-byte all-zero packet: offset 64 is visited (64 < 74) and the entry
at `[64, 74)` decodes, so the buy list holds one entry. -/
theorem depth_under76_nonempty :
    (List.replicate 74 (0 : Nat)).length < 76 ∧
    (parse_packet (List.replicate 74 0)).map
      (fun t => (t.depth.buy.length, t.depth.sell.length)) = Except.ok (1, 0) := by
  refine ⟨by decide, ?_⟩
  rfl

/-! ### Subscription protocol (`send_request`) -/

/-- One outbound JSON control frame, at the dict level: the source
builds `{"task": ..., "channel": ..., "token": ..., "user": ...,
"acctid": ...}` and sends `six.b(json.dumps(request))`. -/
structure ControlFrame where
  task : String
  channel : String
  token : String
  user : String
  acctid : String
deriving DecidableEq, Repr

/-- What `send_request` reports to its caller: `sentTrue` models the
`return True` of the success path; `invalidTask` models the
validation-failure path, which prints an error message and falls off
the end of the function (returning `None`, not `True`) without any
network send. -/
inductive SendOutcome where
  | sentTrue
  | invalidTask
deriving DecidableEq, Repr

/-- `send_request(self, token)` from the source (lines 332-355): when
`self.task in ("mw", "sfi", "dp")` it sends the connect frame
(task `"cn"`, empty channel) and then the subscribe frame (the stored
task, the given channel), and returns `True`; otherwise it sends
nothing and reports the invalid task.  The returned list holds the
frames passed to `ws.sendMessage`, in send order. -/
def send_request (task feed_token client_code stoken : String) :
    List ControlFrame × SendOutcome :=
  if task = "mw" ∨ task = "sfi" ∨ task = "dp" then
    ([{ task := "cn", channel := "", token := feed_token, user := client_code,
        acctid := client_code },
      { task := task, channel := stoken, token := feed_token, user := client_code,
        acctid := client_code }],
     SendOutcome.sentTrue)
  else
    ([], SendOutcome.invalidTask)

/-- C7 — For every task string not in `{"mw", "sfi", "dp"}`,
`send_request` sends no frame and reports the validation failure to
the caller synchronously, before any network action; for every task
in that set it sends exactly two frames in order: first the connect
frame with task `"cn"` and empty channel, then the subscribe frame
with the stored task and channel. -/
theorem send_request_validation (task ft cc tok : String) :
    (task ∉ (["mw", "sfi", "dp"] : List String) →
      send_request task ft cc tok = ([], SendOutcome.invalidTask)) ∧
    (task ∈ (["mw", "sfi", "dp"] : List String) →
      send_request task ft cc tok =
        ([{ task := "cn", channel := "", token := ft, user := cc, acctid := cc },
          { task := task, channel := tok, token := ft, user := cc, acctid := cc }],
         SendOutcome.sentTrue)) := by
  have hmem : task ∈ (["mw", "sfi", "dp"] : List String) ↔
      (task = "mw" ∨ task = "sfi" ∨ task = "dp") := by
    simp
  constructor
  · intro hnot
    rw [send_request, if_neg (fun hc => hnot (hmem.mpr hc))]
  · intro hin
    rw [send_request, if_pos (hmem.mp hin)]

/-- Witness for `send_request_validation`: the invalid task `"xyz"`
sends nothing, the valid task `"mw"` sends the two frames. -/
theorem send_request_validation_witness :
    send_request "xyz" "ftok" "client" "ch" = ([], SendOutcome.invalidTask) ∧
    send_request "mw" "ftok" "client" "ch" =
      ([{ task := "cn", channel := "", token := "ftok", user := "client",
          acctid := "client" },
        { task := "mw", channel := "ch", token := "ftok", user := "client",
          acctid := "client" }],
       SendOutcome.sentTrue) :=
  ⟨(send_request_validation "xyz" "ftok" "client" "ch").1 (by decide),
   (send_request_validation "mw" "ftok" "client" "ch").2 (by decide)⟩

/-! ### Keepalive monitor: pong watchdog -/

/-- `PING_INTERVAL = 2.5` seconds from the source. -/
def PING_INTERVAL : ℚ := 5 / 2

/-- The protocol state that the pong machinery touches:
`_last_pong_time` (None until the first pong) and whether
`dropConnection(abort=True)` has been invoked. -/
structure ProtoState where
  last_pong_time : Option ℚ
  aborted : Bool
deriving DecidableEq, Repr

/-- `onPong(self, response)` from the source: sets
`_last_pong_time = time.time()`. -/
def onPong (s : ProtoState) (now : ℚ) : ProtoState :=
  { s with last_pong_time := some now }

/-- `_loop_pong_check(self)` from the source: `if self._last_pong_time:`
(Python truthiness, so `None` and the float `0.0` both skip the
check), and when `time.time() - self._last_pong_time >
2 * PING_INTERVAL` it drops the connection with `abort=True`. -/
def loop_pong_check (s : ProtoState) (now : ℚ) : ProtoState :=
  match s.last_pong_time with
  | none => s
  | some t =>
    if t = 0 then s
    else if now - t > 2 * PING_INTERVAL then { s with aborted := true } else s

/-- The two event kinds that touch the pong state: a pong arriving,
and one firing of the watchdog timer, each stamped with the
`time.time()` at which it runs. -/
inductive SocketEvent where
  | pong (now : ℚ)
  | pongCheck (now : ℚ)

/-- Dispatch of one event. -/
def stepEvent (s : ProtoState) : SocketEvent → ProtoState
  | SocketEvent.pong now => onPong s now
  | SocketEvent.pongCheck now => loop_pong_check s now

/-- A run of the pong machinery over a sequence of events. -/
def runEvents (s : ProtoState) : List SocketEvent → ProtoState
  | [] => s
  | ev :: rest => runEvents (stepEvent s ev) rest

theorem runEvents_pongCheck_none :
    ∀ (nows : List ℚ) (s : ProtoState), s.last_pong_time = none →
      runEvents s (nows.map SocketEvent.pongCheck) = s := by
  intro nows
  induction nows with
  | nil => intro s _; rfl
  | cons n ns ih =>
    intro s hs
    show runEvents (stepEvent s (SocketEvent.pongCheck n)) (ns.map SocketEvent.pongCheck) = s
    have hstep : stepEvent s (SocketEvent.pongCheck n) = s := by
      simp only [stepEvent, loop_pong_check, hs]
    rw [hstep]
    exact ih s hs

/-- C8 — With `PING_INTERVAL = 2.5` seconds: each received pong sets
`last_pong_time` to the current time; on each watchdog run with a
recorded pong time `t > 0` (any real `time.time()` value), the
connection is newly aborted if and only if `now - t >
2 * PING_INTERVAL`; when no pong has ever been received the watchdog
does nothing, and over any sequence of watchdog runs from the initial
state it never aborts. -/
theorem pong_watchdog_spec :
    PING_INTERVAL = 5 / 2 ∧
    (∀ (s : ProtoState) (now : ℚ), (onPong s now).last_pong_time = some now) ∧
    (∀ (s : ProtoState) (t now : ℚ), s.last_pong_time = some t → 0 < t →
      ((loop_pong_check s now).aborted = true ↔
        (s.aborted = true ∨ now - t > 2 * PING_INTERVAL))) ∧
    (∀ (s : ProtoState) (now : ℚ), s.last_pong_time = none → loop_pong_check s now = s) ∧
    (∀ nows : List ℚ,
      (runEvents { last_pong_time := none, aborted := false }
        (nows.map SocketEvent.pongCheck)).aborted = false) := by
  refine ⟨rfl, fun s now => rfl, ?_, ?_, ?_⟩
  · intro s t now hs hpos
    simp only [loop_pong_check, hs, if_neg hpos.ne']
    by_cases habort : now - t > 2 * PING_INTERVAL
    · rw [if_pos habort]
      simp [habort]
    · rw [if_neg habort]
      simp [habort]
  · intro s now hs
    simp only [loop_pong_check, hs]
  · intro nows
    rw [runEvents_pongCheck_none nows _ rfl]

/-- Witness for `pong_watchdog_spec`: with a pong recorded at time 1
and the watchdog firing at time 10 (gap 9 > 5), the connection is
aborted. -/
theorem pong_watchdog_spec_witness :
    (loop_pong_check { last_pong_time := some 1, aborted := false } 10).aborted = true :=
  (pong_watchdog_spec.2.2.1 { last_pong_time := some 1, aborted := false } 1 10 rfl
    (by norm_num)).mpr (Or.inr (by norm_num [PING_INTERVAL]))

/-! ### Inbound message dispatch (`_on_message`) -/

/-- Which collaborators one `_on_message` call reaches:
`on_message_called` (the raw-frame callback), `parse_binary_called`
(the binary tick decoder), `on_ticks_called` (the tick callback on
the binary path — reached only if `_parse_binary` returns, which it
never does, see `parse_binary`), `parse_text_called` (the text
pipeline). -/
structure DispatchTrace where
  on_message_called : Bool
  parse_binary_called : Bool
  on_ticks_called : Bool
  parse_text_called : Bool
deriving DecidableEq, Repr

/-- Whether an `Except` result is a normal return. -/
def exceptIsOk {ε α : Type} : Except ε α → Bool
  | Except.ok _ => true
  | Except.error _ => false

/-- `_on_message(self, ws, payload, is_binary)` from the source (lines
376-387): the `on_message` callback fires when set; the binary branch
`if self.on_ticks and is_binary and len(payload) > 4` invokes
`self._parse_binary(payload)` and passes its result to `on_ticks`
(so `on_ticks` itself runs only if the decoder returns normally);
non-binary frames go to `_parse_text_message`. -/
def on_message_dispatch (has_on_ticks has_on_message : Bool) (payload : List Nat)
    (is_binary : Bool) : DispatchTrace :=
  { on_message_called := has_on_message
    parse_binary_called := has_on_ticks && is_binary && decide (4 < payload.length)
    on_ticks_called := (has_on_ticks && is_binary && decide (4 < payload.length))
      && exceptIsOk (parse_binary payload)
    parse_text_called := !is_binary }

/-- C10 — For every inbound binary frame of at most 4 payload bytes,
`_on_message` invokes neither the `on_ticks` callback nor the binary
tick decoder, whatever callbacks are set; and a binary payload
reaches the decoder exactly when its length exceeds 4 and an
`on_ticks` callback is set. -/
theorem on_message_binary_gate (ht hm : Bool) (payload : List Nat) :
    (payload.length ≤ 4 →
      (on_message_dispatch ht hm payload true).parse_binary_called = false ∧
      (on_message_dispatch ht hm payload true).on_ticks_called = false) ∧
    ((on_message_dispatch ht hm payload true).parse_binary_called = true ↔
      ht = true ∧ 4 < payload.length) := by
  constructor
  · intro hle
    have h4 : ¬ (4 < payload.length) := by omega
    constructor
    · simp [on_message_dispatch, h4]
    · simp [on_message_dispatch, h4]
  · constructor
    · intro hcall
      simp [on_message_dispatch] at hcall
      exact hcall
    · intro hc
      simp [on_message_dispatch, hc.1, hc.2]

/-- Witness for `on_message_binary_gate`: a 3-byte binary frame with
both callbacks set reaches neither the decoder nor `on_ticks`. -/
theorem on_message_binary_gate_witness :
    (on_message_dispatch true true [0, 0, 0] true).parse_binary_called = false ∧
    (on_message_dispatch true true [0, 0, 0] true).on_ticks_called = false :=
  (on_message_binary_gate true true [0, 0, 0]).1 (by decide)

/-! ### Text frame pipeline (`_parse_text_message`) -/

/-- A Python value arriving as the frame payload: `bytes` in the
normal PY3 case, `str` otherwise. -/
inductive PyVal where
  | bytes (b : List Nat)
  | str (s : String)

/-- The quote normalization `data.decode("utf8").replace("'", '"')`
of the source: every single-quote character (code 39) becomes a
double-quote character (code 34). -/
def quoteNormalize (s : String) : String :=
  String.map (fun c => if c = Char.ofNat 39 then Char.ofNat 34 else c) s

/-- The observable outcome of one text frame: silently dropped by the
`except ValueError: return`, or delivered to `on_ticks`. -/
inductive TextOutcome (J : Type) where
  | dropped
  | delivered (data : J)
deriving DecidableEq, Repr

/-- The body of the `try:` block of `_parse_text_message`, lines
427-430 of the source, parameterized by the library stages it calls:
read the variable `data` (never assigned when the payload was not
`bytes`, hence `NameError`), `zlib.decompress` it, decode the result
as UTF-8, normalize quotes, `json.loads`, then the
`json.loads(json.dumps(...))` round trip.  Every stage error
propagates out of the body. -/
def text_try_body {J : Type}
    (zlibDecompress : List Nat → Except PyErr (List Nat))
    (utf8decode : List Nat → Except PyErr String)
    (jsonLoads : String → Except PyErr J)
    (jsonDumps : J → String)
    (data : Option (List Nat)) : Except PyErr J :=
  match data with
  | none => Except.error PyErr.nameError
  | some bs =>
    match zlibDecompress bs with
    | Except.error e => Except.error e
    | Except.ok dec =>
      match utf8decode dec with
      | Except.error e => Except.error e
      | Except.ok s =>
        match jsonLoads (quoteNormalize s) with
        | Except.error e => Except.error e
        | Except.ok j => jsonLoads (jsonDumps j)

/-- The `try ... except ValueError: return` wrapper of the source:
only `ValueError` (and its subclasses) is caught, producing the
`dropped` outcome with no callback; every other exception (in
particular `zlib.error` and `NameError`) propagates.  A normal result
is delivered to `on_ticks`. -/
def run_text_try {J : Type}
    (zlibDecompress : List Nat → Except PyErr (List Nat))
    (utf8decode : List Nat → Except PyErr String)
    (jsonLoads : String → Except PyErr J)
    (jsonDumps : J → String)
    (data : Option (List Nat)) : Except PyErr (TextOutcome J) :=
  match text_try_body zlibDecompress utf8decode jsonLoads jsonDumps data with
  | Except.error e =>
    if isValueError e then Except.ok TextOutcome.dropped else Except.error e
  | Except.ok j => Except.ok (TextOutcome.delivered j)

/-- `_parse_text_message(self, payload)` from the source (lines
419-434), parameterized by the library stages: a `bytes` payload is
UTF-8-decoded and base64-decoded into `data` before the `try:` block
(errors there propagate, they are outside the `try`); a non-`bytes`
payload leaves `data` unassigned.  Then the `try:` body runs under
`except ValueError`. -/
def parse_text_message {J : Type}
    (utf8decode : List Nat → Except PyErr String)
    (b64decode : String → Except PyErr (List Nat))
    (zlibDecompress : List Nat → Except PyErr (List Nat))
    (jsonLoads : String → Except PyErr J)
    (jsonDumps : J → String)
    (payload : PyVal) : Except PyErr (TextOutcome J) :=
  match payload with
  | PyVal.str _ => run_text_try zlibDecompress utf8decode jsonLoads jsonDumps none
  | PyVal.bytes b =>
    match utf8decode b with
    | Except.error e => Except.error e
    | Except.ok s =>
      match b64decode s with
      | Except.error e => Except.error e
      | Except.ok data => run_text_try zlibDecompress utf8decode jsonLoads jsonDumps (some data)

/-- C9 counterexample — the claim "any failure at the decompression or
parse stage is non-fatal: the handler returns normally" fails at the
decompression stage: `zlib.decompress` raises `zlib.error`, which is
not a `ValueError`, so `except ValueError` does not catch it and
`_parse_text_message` raises.  Stage functions: UTF-8 decode and
base64 decode succeed, decompression fails with `zlib.error` (the
real library's behavior on garbage input such as `b"\x00"`). -/
theorem decompress_failure_raises :
    parse_text_message (fun _ => Except.ok "") (fun _ => Except.ok [])
      (fun _ => Except.error PyErr.zlibError)
      (fun _ => (Except.error PyErr.valueError : Except PyErr Unit))
      (fun _ => "") (PyVal.bytes []) = Except.error PyErr.zlibError := rfl

/-- C9 (amended) — For a `bytes` text frame whose pre-`try` stages
succeed, the pipeline is base64-decode, then DEFLATE-decompress, then
UTF-8-decode, then JSON-parse with single quotes normalized to double
quotes (plus a `dumps`/`loads` round trip); a `ValueError`-family
failure inside the `try` (UTF-8 decode, JSON parse) is non-fatal —
the handler returns normally with the frame dropped and no callback —
but a failure that is not a `ValueError` (decompression's
`zlib.error`) propagates out of the handler. -/
theorem text_message_error_routing {J : Type}
    (utf8decode : List Nat → Except PyErr String)
    (b64decode : String → Except PyErr (List Nat))
    (zlibDecompress : List Nat → Except PyErr (List Nat))
    (jsonLoads : String → Except PyErr J)
    (jsonDumps : J → String)
    (b : List Nat) (s : String) (data : List Nat)
    (hu : utf8decode b = Except.ok s) (hb : b64decode s = Except.ok data) :
    (∀ e, text_try_body zlibDecompress utf8decode jsonLoads jsonDumps (some data) =
        Except.error e →
      parse_text_message utf8decode b64decode zlibDecompress jsonLoads jsonDumps
        (PyVal.bytes b) =
        (if isValueError e then Except.ok TextOutcome.dropped else Except.error e)) ∧
    (∀ dec s2 j j2, zlibDecompress data = Except.ok dec → utf8decode dec = Except.ok s2 →
      jsonLoads (quoteNormalize s2) = Except.ok j → jsonLoads (jsonDumps j) = Except.ok j2 →
      parse_text_message utf8decode b64decode zlibDecompress jsonLoads jsonDumps
        (PyVal.bytes b) = Except.ok (TextOutcome.delivered j2)) := by
  constructor
  · intro e htb
    simp only [parse_text_message, hu, hb, run_text_try, htb]
  · intro dec s2 j j2 hz hu2 hj hj2
    simp only [parse_text_message, hu, hb, run_text_try, text_try_body, hz, hu2, hj, hj2]

/-- Witness for `text_message_error_routing`: a JSON-parse failure
(`ValueError`) inside the `try` yields the dropped outcome, no
exception. -/
theorem text_message_error_routing_witness :
    parse_text_message (fun _ => Except.ok "") (fun _ => Except.ok [])
      (fun _ => Except.ok [])
      (fun _ => (Except.error PyErr.valueError : Except PyErr Unit))
      (fun _ => "") (PyVal.bytes []) =
      Except.ok (TextOutcome.dropped : TextOutcome Unit) :=
  (text_message_error_routing (fun _ => Except.ok "") (fun _ => Except.ok [])
    (fun _ => Except.ok [])
    (fun _ => (Except.error PyErr.valueError : Except PyErr Unit))
    (fun _ => "") [] "" [] rfl rfl).1 PyErr.valueError rfl
